import Mathlib

/-!
# VideoConverter: shallow embedding of the stream decision pipeline

Embedding of `src/main.rs` of Fergus-Molloy/VideoConverter: the stream
classifier (`parse_stream_metadata`), the stream selector (`get_mappings`),
the codec policy resolver (`get_codecs`) and the plan reporter
(`print_codec_mapping`), together with theorems settling the claims about
them.

Modelling conventions:
- ffmpeg's open codec-id enum is modelled by `CodecId`, with the ids the
  program matches on as named constructors and every other id as
  `CodecId.other n`.
- ffmpeg's codec profile enum is modelled by `Profile` the same way; the DTS
  sub-profiles by `DTSProfile`.
- The raw data ffmpeg supplies per stream (medium, codec parameters,
  metadata dictionary, decoder probes) is a `RawStream`; the decoder probes
  are `Except`-valued, mirroring the fallible `decoder()` calls.
- `stream.index()` equals the stream's ordinal position in the container,
  so the classifier enumerates positions.
- `process::exit(1)` in the selector is modelled as `Except.error` carrying
  the message printed to stderr.
- Rust's `HashMap<usize, Option<Id>>` is modelled as an association list
  `List (Nat × Option CodecId)`; indexing `parsed[index]`, which panics out
  of bounds, is modelled with the partial lookup `l[i]?` under `Option`.
-/

instance {ε α : Type} [DecidableEq ε] [DecidableEq α] : DecidableEq (Except ε α) := fun x y =>
  match x, y with
  | .ok a, .ok b => decidable_of_iff (a = b) (by simp)
  | .ok _, .error _ => isFalse (by simp)
  | .error _, .ok _ => isFalse (by simp)
  | .error e, .error f => decidable_of_iff (e = f) (by simp)

/-- ffmpeg `codec::Id`: the ids the program names, plus `other` for the rest
of the open enum. -/
inductive CodecId where
  | H264
  | HEVC
  | FLAC
  | AAC
  | TRUEHD
  | DTS
  | HDMV_PGS_SUBTITLE
  | DVD_SUBTITLE
  | SSA
  | other (n : Nat)
deriving DecidableEq, Repr

/-- ffmpeg `codec::profile::DTS`: the HD_MA sub-profile the program names,
plus `other` for the remaining DTS profiles. -/
inductive DTSProfile where
  | HD_MA
  | other (n : Nat)
deriving DecidableEq, Repr

/-- ffmpeg `codec::Profile`: `Unknown`, the `DTS` family the program
matches on, and `other` for every remaining profile family. -/
inductive Profile where
  | Unknown
  | DTS (p : DTSProfile)
  | other (n : Nat)
deriving DecidableEq, Repr

/-- ffmpeg `media::Type` (`medium()`): video, audio, subtitle, and `other`
for data/attachment/unknown streams. -/
inductive MediaType where
  | Video
  | Audio
  | Subtitle
  | other (n : Nat)
deriving DecidableEq, Repr

/-- ffmpeg `AVFieldOrder`, as probed from the video decoder. -/
inductive AVFieldOrder where
  | AV_FIELD_PROGRESSIVE
  | AV_FIELD_TT
  | AV_FIELD_TB
  | AV_FIELD_BT
  | AV_FIELD_BB
  | AV_FIELD_UNKNOWN
deriving DecidableEq, Repr

/-- `enum FieldOrder` of main.rs. -/
inductive FieldOrder where
  | Progressive
  | Unknown
  | Interlaced
deriving DecidableEq, Repr

/-- One raw container stream as the external demuxer exposes it: its medium,
its codec id from the codec parameters, the `language` metadata tag, and the
two fallible decoder probes (`Err n` models an ffmpeg error value). -/
structure RawStream where
  medium : MediaType
  codec : CodecId
  lang : Option String
  fieldOrderProbe : Except Nat AVFieldOrder
  profileProbe : Except Nat Profile
deriving Repr

/-- `struct Video` of main.rs. -/
structure Video where
  index : Nat
  codec : CodecId
  field_order : FieldOrder
deriving DecidableEq, Repr

/-- `struct Audio` of main.rs. -/
structure Audio where
  index : Nat
  codec : CodecId
  lang : Option String
  profile : Option Profile
deriving DecidableEq, Repr

/-- `struct Subtitle` of main.rs. -/
structure Subtitle where
  index : Nat
  codec : CodecId
  lang : Option String
deriving DecidableEq, Repr

/-- `enum StreamType` of main.rs. -/
inductive StreamType where
  | video (v : Video)
  | audio (a : Audio)
  | subtitle (s : Subtitle)
deriving DecidableEq, Repr

namespace Video

/-- `Video::new`: codec from the parameters; field order from the decoder
probe, `Unknown` on probe failure (logged, non-fatal). -/
def new (index : Nat) (s : RawStream) : Video :=
  let field_order :=
    match s.fieldOrderProbe with
    | .ok .AV_FIELD_PROGRESSIVE => FieldOrder.Progressive
    | .ok .AV_FIELD_TT => FieldOrder.Interlaced
    | .ok .AV_FIELD_TB => FieldOrder.Interlaced
    | .ok .AV_FIELD_BT => FieldOrder.Interlaced
    | .ok .AV_FIELD_BB => FieldOrder.Interlaced
    | .ok .AV_FIELD_UNKNOWN => FieldOrder.Unknown
    | .error _ => FieldOrder.Unknown
  { index := index, codec := s.codec, field_order := field_order }

end Video

namespace Audio

/-- `Audio::new`: codec from the parameters, language from the metadata
dictionary; the profile is `None` when the decoder reports `Unknown` or
cannot be opened, `Some` otherwise. -/
def new (index : Nat) (s : RawStream) : Audio :=
  let profile :=
    match s.profileProbe with
    | .ok Profile.Unknown => none
    | .ok x => some x
    | .error _ => none
  { index := index, codec := s.codec, lang := s.lang, profile := profile }

end Audio

namespace Subtitle

/-- `Subtitle::new`: codec from the parameters, language from the metadata
dictionary. -/
def new (index : Nat) (s : RawStream) : Subtitle :=
  { index := index, codec := s.codec, lang := s.lang }

end Subtitle

/-- The `index` field of a classified descriptor, whichever kind it is. -/
def StreamType.idx : StreamType → Nat
  | .video v => v.index
  | .audio a => a.index
  | .subtitle s => s.index

/-- The source codec of a classified descriptor, as `print_codec_mapping`
reads it (`oldcodec`). -/
def StreamType.codecOf : StreamType → CodecId
  | .video v => v.codec
  | .audio a => a.codec
  | .subtitle s => s.codec

/-- `parse_stream_metadata`'s loop from position `i`: one descriptor per
video/audio/subtitle stream, every other medium skipped.  `stream.index()`
is the stream's ordinal position in the container. -/
def parse_stream_metadata_from (i : Nat) : List RawStream → List StreamType
  | [] => []
  | s :: rest =>
    match s.medium with
    | .Video => StreamType.video (Video.new i s) :: parse_stream_metadata_from (i + 1) rest
    | .Audio => StreamType.audio (Audio.new i s) :: parse_stream_metadata_from (i + 1) rest
    | .Subtitle => StreamType.subtitle (Subtitle.new i s) :: parse_stream_metadata_from (i + 1) rest
    | .other _ => parse_stream_metadata_from (i + 1) rest

/-- `parse_stream_metadata`: classify the container's stream list. -/
def parse_stream_metadata (file : List RawStream) : List StreamType :=
  parse_stream_metadata_from 0 file

/-- The selector's `video_mappings` accumulator: indices of all video
streams, in list order. -/
def video_mappings (parsed : List StreamType) : List Nat :=
  parsed.filterMap fun s =>
    match s with
    | .video v => some v.index
    | _ => none

/-- The selector's first-pass `audio_mappings` accumulator: indices of the
audio streams whose language tag is `"eng"`. -/
def audio_eng_mappings (parsed : List StreamType) : List Nat :=
  parsed.filterMap fun s =>
    match s with
    | .audio a => if a.lang = some "eng" then some a.index else none
    | _ => none

/-- The selector's fallback loop over audio: indices of all audio streams. -/
def audio_all_mappings (parsed : List StreamType) : List Nat :=
  parsed.filterMap fun s =>
    match s with
    | .audio a => some a.index
    | _ => none

/-- The selector's first-pass `subtitle_mappings` accumulator: indices of
the subtitle streams whose language tag is `"eng"`. -/
def subtitle_eng_mappings (parsed : List StreamType) : List Nat :=
  parsed.filterMap fun s =>
    match s with
    | .subtitle st => if st.lang = some "eng" then some st.index else none
    | _ => none

/-- The selector's fallback loop over subtitles: indices of all subtitle
streams. -/
def subtitle_all_mappings (parsed : List StreamType) : List Nat :=
  parsed.filterMap fun s =>
    match s with
    | .subtitle st => some st.index
    | _ => none

/-- `audio_mappings` after the `len() == 0` fallback: English-tagged audio
indices, or all audio indices when none are English-tagged. -/
def audio_mappings (parsed : List StreamType) : List Nat :=
  let eng := audio_eng_mappings parsed
  if eng.length = 0 then audio_all_mappings parsed else eng

/-- `subtitle_mappings` after the `len() == 0` fallback. -/
def subtitle_mappings (parsed : List StreamType) : List Nat :=
  let eng := subtitle_eng_mappings parsed
  if eng.length = 0 then subtitle_all_mappings parsed else eng

/-- `get_mappings`: reject the file (`process::exit(1)` after the stderr
message, modelled as `Except.error` of that message) unless it has exactly
one video stream; otherwise the plan is video, then audio, then subtitle
indices. -/
def get_mappings (parsed : List StreamType) : Except String (List Nat) :=
  if (video_mappings parsed).length ≠ 1 then
    Except.error ("Erorr: File has " ++ toString (video_mappings parsed).length ++ " video streams")
  else
    Except.ok (video_mappings parsed ++ (audio_mappings parsed ++ subtitle_mappings parsed))

/-- The body of `get_codecs`'s loop for one selected index: the decision
inserted for the stream found at `parsed[index]` (`none` = pass-through,
`some c` = transcode to `c`). -/
def codec_decision : StreamType → Option CodecId
  | .video v =>
    match v.codec with
    | .HEVC => none
    | .H264 => none
    | _ => some CodecId.H264
  | .audio a =>
    match a.codec with
    | .FLAC => none
    | .AAC => none
    | .TRUEHD => some CodecId.FLAC
    | .DTS =>
      match a.profile with
      | some (Profile.DTS DTSProfile.HD_MA) => some CodecId.FLAC
      | _ => some CodecId.AAC
    | _ => some CodecId.AAC
  | .subtitle st =>
    match st.codec with
    | .HDMV_PGS_SUBTITLE => none
    | .DVD_SUBTITLE => none
    | _ => some CodecId.SSA

/-- `get_codecs`: for each selected index look the stream up at position
`index` of the classified list (`parsed[index]`, a panic out of bounds,
modelled as `none`) and record its decision.  The three `HashMap`s of the
source, chained into one map, are modelled as one association list keyed by
index, in loop order. -/
def get_codecs (parsed : List StreamType) : List Nat → Option (List (Nat × Option CodecId))
  | [] => some []
  | index :: rest =>
    match parsed[index]? with
    | none => none
    | some stream =>
      match get_codecs parsed rest with
      | none => none
      | some tail => some ((index, codec_decision stream) :: tail)

/-- One line of `print_codec_mapping`: the stream's index, the old codec
read from `parsed[*index]`, the new codec (the old one on pass-through),
and whether the line is annotated `(copy)`. -/
structure ReportLine where
  index : Nat
  oldcodec : CodecId
  newcodec : CodecId
  copy : Bool
deriving DecidableEq, Repr

/-- `print_codec_mapping`: one report line per decision; `parsed[*index]`
panics out of bounds, modelled as `none`. -/
def print_codec_mapping (parsed : List StreamType) :
    List (Nat × Option CodecId) → Option (List ReportLine)
  | [] => some []
  | (index, codec) :: rest =>
    match parsed[index]? with
    | none => none
    | some stream =>
      let oldcodec := stream.codecOf
      let newcodec :=
        match codec with
        | none => oldcodec
        | some x => x
      match print_codec_mapping parsed rest with
      | none => none
      | some tail =>
        some ({ index := index, oldcodec := oldcodec, newcodec := newcodec,
                copy := codec.isNone } :: tail)

/-- `main`'s per-file composition: classify, select, resolve, report. -/
def convert_file (file : List RawStream) :
    Except String (List Nat × List (Nat × Option CodecId) × List ReportLine) :=
  let parsed := parse_stream_metadata file
  match get_mappings parsed with
  | .error e => Except.error e
  | .ok mappings =>
    match get_codecs parsed mappings with
    | none => Except.error "panic: index out of bounds"
    | some codecs =>
      match print_codec_mapping parsed codecs with
      | none => Except.error "panic: index out of bounds"
      | some report => Except.ok (mappings, codecs, report)

/-- The number of video streams in a classified descriptor list. -/
def countVideo (parsed : List StreamType) : Nat :=
  parsed.countP fun s =>
    match s with
    | .video _ => true
    | _ => false

/-- The number of audio streams in a classified descriptor list. -/
def countAudio (parsed : List StreamType) : Nat :=
  parsed.countP fun s =>
    match s with
    | .audio _ => true
    | _ => false

/-- Whether classification keeps a raw stream (video, audio or subtitle)
rather than silently dropping it. -/
def keptStream (s : RawStream) : Bool :=
  match s.medium with
  | .Video => true
  | .Audio => true
  | .Subtitle => true
  | .other _ => false

/-- `d` is the descriptor classification produces for raw stream `s` at
container position `i` (no descriptor when the stream is dropped). -/
def classifies (i : Nat) (s : RawStream) (d : StreamType) : Prop :=
  match s.medium with
  | .Video => d = StreamType.video (Video.new i s)
  | .Audio => d = StreamType.audio (Audio.new i s)
  | .Subtitle => d = StreamType.subtitle (Subtitle.new i s)
  | .other _ => False

/-- The codec decision table as the specification states it, stream kind by
stream kind (`none` = pass-through, `some c` = transcode to `c`). -/
def decision_spec (s : StreamType) (d : Option CodecId) : Prop :=
  match s with
  | .video v =>
    if v.codec = CodecId.H264 ∨ v.codec = CodecId.HEVC then d = none
    else d = some CodecId.H264
  | .audio a =>
    if a.codec = CodecId.FLAC ∨ a.codec = CodecId.AAC then d = none
    else if a.codec = CodecId.TRUEHD then d = some CodecId.FLAC
    else if a.codec = CodecId.DTS then
      if a.profile = some (Profile.DTS DTSProfile.HD_MA) then d = some CodecId.FLAC
      else d = some CodecId.AAC
    else d = some CodecId.AAC
  | .subtitle st =>
    if st.codec = CodecId.HDMV_PGS_SUBTITLE ∨ st.codec = CodecId.DVD_SUBTITLE then d = none
    else d = some CodecId.SSA

section Examples

/-- Spec §8, end-to-end example 1: H.264 video, DTS HD-MA English audio,
PGS English subtitle. -/
def exampleFile1 : List RawStream :=
  [ { medium := .Video, codec := .H264, lang := none,
      fieldOrderProbe := .ok .AV_FIELD_PROGRESSIVE, profileProbe := .error 0 },
    { medium := .Audio, codec := .DTS, lang := some "eng",
      fieldOrderProbe := .error 0, profileProbe := .ok (.DTS .HD_MA) },
    { medium := .Subtitle, codec := .HDMV_PGS_SUBTITLE, lang := some "eng",
      fieldOrderProbe := .error 0, profileProbe := .error 0 } ]

example :
    convert_file exampleFile1 =
      Except.ok ([0, 1, 2],
        [(0, none), (1, some CodecId.FLAC), (2, none)],
        [ { index := 0, oldcodec := .H264, newcodec := .H264, copy := true },
          { index := 1, oldcodec := .DTS, newcodec := .FLAC, copy := false },
          { index := 2, oldcodec := .HDMV_PGS_SUBTITLE, newcodec := .HDMV_PGS_SUBTITLE,
            copy := true } ]) := by
  decide

/-- Spec §8, end-to-end example 2: MPEG-2 video (an `other` codec id), two
non-English audio streams, no subtitles. -/
def exampleFile2 : List RawStream :=
  [ { medium := .Video, codec := .other 2, lang := none,
      fieldOrderProbe := .ok .AV_FIELD_UNKNOWN, profileProbe := .error 0 },
    { medium := .Audio, codec := .other 86018, lang := some "fre",
      fieldOrderProbe := .error 0, profileProbe := .error 0 },
    { medium := .Audio, codec := .other 86019, lang := some "jpn",
      fieldOrderProbe := .error 0, profileProbe := .error 0 } ]

example :
    convert_file exampleFile2 =
      Except.ok ([0, 1, 2],
        [(0, some CodecId.H264), (1, some CodecId.AAC), (2, some CodecId.AAC)],
        [ { index := 0, oldcodec := .other 2, newcodec := .H264, copy := false },
          { index := 1, oldcodec := .other 86018, newcodec := .AAC, copy := false },
          { index := 2, oldcodec := .other 86019, newcodec := .AAC, copy := false } ]) := by
  decide

/-- Spec §8, end-to-end example 3: two video streams. -/
def exampleFile3 : List RawStream :=
  [ { medium := .Video, codec := .H264, lang := none,
      fieldOrderProbe := .ok .AV_FIELD_PROGRESSIVE, profileProbe := .error 0 },
    { medium := .Video, codec := .HEVC, lang := none,
      fieldOrderProbe := .ok .AV_FIELD_PROGRESSIVE, profileProbe := .error 0 } ]

example :
    convert_file exampleFile3 = Except.error "Erorr: File has 2 video streams" := by
  decide

end Examples

section Helpers

/-- Every descriptor the classifier's loop emits from position `i` carries an
index at least `i`. -/
theorem parse_from_idx_ge : ∀ (ss : List RawStream) (i : Nat) (d : StreamType),
    d ∈ parse_stream_metadata_from i ss → i ≤ d.idx := by
  intro ss
  induction ss with
  | nil => intro i d h; simp [parse_stream_metadata_from] at h
  | cons s rest ih =>
    intro i d h
    cases hm : s.medium <;> simp only [parse_stream_metadata_from, hm] at h
    case Video =>
      rcases List.mem_cons.mp h with h | h
      · subst h; simp [StreamType.idx, Video.new]
      · exact Nat.le_of_succ_le (ih (i + 1) d h)
    case Audio =>
      rcases List.mem_cons.mp h with h | h
      · subst h; simp [StreamType.idx, Audio.new]
      · exact Nat.le_of_succ_le (ih (i + 1) d h)
    case Subtitle =>
      rcases List.mem_cons.mp h with h | h
      · subst h; simp [StreamType.idx, Subtitle.new]
      · exact Nat.le_of_succ_le (ih (i + 1) d h)
    case other => exact Nat.le_of_succ_le (ih (i + 1) d h)

/-- The classifier's output is strictly increasing in the `index` field. -/
theorem parse_from_pairwise : ∀ (ss : List RawStream) (i : Nat),
    (parse_stream_metadata_from i ss).Pairwise (fun a b => a.idx < b.idx) := by
  intro ss
  induction ss with
  | nil => intro i; simp [parse_stream_metadata_from]
  | cons s rest ih =>
    intro i
    cases hm : s.medium <;> simp only [parse_stream_metadata_from, hm]
    case Video =>
      refine List.pairwise_cons.mpr ⟨fun b hb => ?_, ih (i + 1)⟩
      have := parse_from_idx_ge rest (i + 1) b hb
      show i < b.idx
      omega
    case Audio =>
      refine List.pairwise_cons.mpr ⟨fun b hb => ?_, ih (i + 1)⟩
      have := parse_from_idx_ge rest (i + 1) b hb
      show i < b.idx
      omega
    case Subtitle =>
      refine List.pairwise_cons.mpr ⟨fun b hb => ?_, ih (i + 1)⟩
      have := parse_from_idx_ge rest (i + 1) b hb
      show i < b.idx
      omega
    case other => exact ih (i + 1)

/-- A `filterMap` that only ever extracts the `index` field preserves the
strict ordering of indices. -/
theorem filterMap_idx_pairwise (f : StreamType → Option Nat)
    (hf : ∀ s n, f s = some n → n = s.idx) :
    ∀ parsed : List StreamType,
      parsed.Pairwise (fun a b => a.idx < b.idx) →
      (parsed.filterMap f).Pairwise (· < ·) := by
  intro parsed
  induction parsed with
  | nil => intro _; simp
  | cons d rest ih =>
    intro h
    have h' := List.pairwise_cons.mp h
    rw [List.filterMap_cons]
    cases hd : f d with
    | none => exact ih h'.2
    | some n =>
      refine List.pairwise_cons.mpr ⟨fun m hm => ?_, ih h'.2⟩
      rcases List.mem_filterMap.mp hm with ⟨s, hs, hfs⟩
      have := hf d n hd
      have := hf s m hfs
      have := h'.1 s hs
      omega

/-- Membership in the selector's video group. -/
theorem mem_video_mappings (parsed : List StreamType) (i : Nat) :
    i ∈ video_mappings parsed ↔ ∃ v, StreamType.video v ∈ parsed ∧ v.index = i := by
  simp only [video_mappings, List.mem_filterMap]
  constructor
  · rintro ⟨s, hs, he⟩
    cases s with
    | video v => exact ⟨v, hs, by simpa using he⟩
    | audio a => simp at he
    | subtitle st => simp at he
  · rintro ⟨v, hv, he⟩
    exact ⟨StreamType.video v, hv, by simpa using he⟩

/-- Membership in the selector's English-audio accumulator. -/
theorem mem_audio_eng_mappings (parsed : List StreamType) (i : Nat) :
    i ∈ audio_eng_mappings parsed ↔
      ∃ a, StreamType.audio a ∈ parsed ∧ a.lang = some "eng" ∧ a.index = i := by
  simp only [audio_eng_mappings, List.mem_filterMap]
  constructor
  · rintro ⟨s, hs, he⟩
    cases s with
    | video v => simp at he
    | audio a =>
      by_cases hl : a.lang = some "eng"
      · refine ⟨a, hs, hl, ?_⟩
        simp only [hl, if_pos] at he
        simpa using he
      · simp [hl] at he
    | subtitle st => simp at he
  · rintro ⟨a, ha, hl, he⟩
    exact ⟨StreamType.audio a, ha, by simp [hl, he]⟩

/-- Membership in the selector's audio fallback loop. -/
theorem mem_audio_all_mappings (parsed : List StreamType) (i : Nat) :
    i ∈ audio_all_mappings parsed ↔ ∃ a, StreamType.audio a ∈ parsed ∧ a.index = i := by
  simp only [audio_all_mappings, List.mem_filterMap]
  constructor
  · rintro ⟨s, hs, he⟩
    cases s with
    | video v => simp at he
    | audio a => exact ⟨a, hs, by simpa using he⟩
    | subtitle st => simp at he
  · rintro ⟨a, ha, he⟩
    exact ⟨StreamType.audio a, ha, by simpa using he⟩

/-- Membership in the selector's English-subtitle accumulator. -/
theorem mem_subtitle_eng_mappings (parsed : List StreamType) (i : Nat) :
    i ∈ subtitle_eng_mappings parsed ↔
      ∃ st, StreamType.subtitle st ∈ parsed ∧ st.lang = some "eng" ∧ st.index = i := by
  simp only [subtitle_eng_mappings, List.mem_filterMap]
  constructor
  · rintro ⟨s, hs, he⟩
    cases s with
    | video v => simp at he
    | audio a => simp at he
    | subtitle st =>
      by_cases hl : st.lang = some "eng"
      · refine ⟨st, hs, hl, ?_⟩
        simp only [hl, if_pos] at he
        simpa using he
      · simp [hl] at he
  · rintro ⟨st, hst, hl, he⟩
    exact ⟨StreamType.subtitle st, hst, by simp [hl, he]⟩

/-- Membership in the selector's subtitle fallback loop. -/
theorem mem_subtitle_all_mappings (parsed : List StreamType) (i : Nat) :
    i ∈ subtitle_all_mappings parsed ↔
      ∃ st, StreamType.subtitle st ∈ parsed ∧ st.index = i := by
  simp only [subtitle_all_mappings, List.mem_filterMap]
  constructor
  · rintro ⟨s, hs, he⟩
    cases s with
    | video v => simp at he
    | audio a => simp at he
    | subtitle st => exact ⟨st, hs, by simpa using he⟩
  · rintro ⟨st, hst, he⟩
    exact ⟨StreamType.subtitle st, hst, by simpa using he⟩

end Helpers

section Helpers2

/-- The video group of a classified list is strictly ascending. -/
theorem video_mappings_sorted (file : List RawStream) :
    (video_mappings (parse_stream_metadata file)).Pairwise (· < ·) := by
  refine filterMap_idx_pairwise _ ?_ _ (parse_from_pairwise file 0)
  intro s n h
  cases s with
  | video v => simpa [StreamType.idx] using h.symm
  | audio a => simp at h
  | subtitle st => simp at h

/-- The English-audio accumulator of a classified list is strictly
ascending. -/
theorem audio_eng_mappings_sorted (file : List RawStream) :
    (audio_eng_mappings (parse_stream_metadata file)).Pairwise (· < ·) := by
  refine filterMap_idx_pairwise _ ?_ _ (parse_from_pairwise file 0)
  intro s n h
  cases s with
  | video v => simp at h
  | audio a =>
    by_cases hl : a.lang = some "eng"
    · simp only [hl, if_pos] at h
      simpa [StreamType.idx] using h.symm
    · simp [hl] at h
  | subtitle st => simp at h

/-- The audio fallback list of a classified list is strictly ascending. -/
theorem audio_all_mappings_sorted (file : List RawStream) :
    (audio_all_mappings (parse_stream_metadata file)).Pairwise (· < ·) := by
  refine filterMap_idx_pairwise _ ?_ _ (parse_from_pairwise file 0)
  intro s n h
  cases s with
  | video v => simp at h
  | audio a => simpa [StreamType.idx] using h.symm
  | subtitle st => simp at h

/-- The English-subtitle accumulator of a classified list is strictly
ascending. -/
theorem subtitle_eng_mappings_sorted (file : List RawStream) :
    (subtitle_eng_mappings (parse_stream_metadata file)).Pairwise (· < ·) := by
  refine filterMap_idx_pairwise _ ?_ _ (parse_from_pairwise file 0)
  intro s n h
  cases s with
  | video v => simp at h
  | audio a => simp at h
  | subtitle st =>
    by_cases hl : st.lang = some "eng"
    · simp only [hl, if_pos] at h
      simpa [StreamType.idx] using h.symm
    · simp [hl] at h

/-- The subtitle fallback list of a classified list is strictly ascending. -/
theorem subtitle_all_mappings_sorted (file : List RawStream) :
    (subtitle_all_mappings (parse_stream_metadata file)).Pairwise (· < ·) := by
  refine filterMap_idx_pairwise _ ?_ _ (parse_from_pairwise file 0)
  intro s n h
  cases s with
  | video v => simp at h
  | audio a => simp at h
  | subtitle st => simpa [StreamType.idx] using h.symm

/-- The audio group after the fallback is strictly ascending. -/
theorem audio_mappings_sorted (file : List RawStream) :
    (audio_mappings (parse_stream_metadata file)).Pairwise (· < ·) := by
  unfold audio_mappings
  by_cases h : (audio_eng_mappings (parse_stream_metadata file)).length = 0
  · simpa [h] using audio_all_mappings_sorted file
  · simpa [h] using audio_eng_mappings_sorted file

/-- The subtitle group after the fallback is strictly ascending. -/
theorem subtitle_mappings_sorted (file : List RawStream) :
    (subtitle_mappings (parse_stream_metadata file)).Pairwise (· < ·) := by
  unfold subtitle_mappings
  by_cases h : (subtitle_eng_mappings (parse_stream_metadata file)).length = 0
  · simpa [h] using subtitle_all_mappings_sorted file
  · simpa [h] using subtitle_eng_mappings_sorted file

/-- The video group has one entry per video stream. -/
theorem video_mappings_length (parsed : List StreamType) :
    (video_mappings parsed).length = countVideo parsed := by
  induction parsed with
  | nil => rfl
  | cons s rest ih =>
    cases s <;>
      simp [video_mappings, countVideo, List.filterMap_cons, List.countP_cons] at ih ⊢ <;>
      simpa [video_mappings, countVideo] using ih

/-- The audio fallback list has one entry per audio stream. -/
theorem audio_all_mappings_length (parsed : List StreamType) :
    (audio_all_mappings parsed).length = countAudio parsed := by
  induction parsed with
  | nil => rfl
  | cons s rest ih =>
    cases s <;>
      simp [audio_all_mappings, countAudio, List.filterMap_cons, List.countP_cons] at ih ⊢ <;>
      simpa [audio_all_mappings, countAudio] using ih

/-- The selector accepts exactly the lists with one video stream, and then
returns the three groups concatenated. -/
theorem get_mappings_ok (parsed : List StreamType) (h : countVideo parsed = 1) :
    get_mappings parsed =
      Except.ok (video_mappings parsed ++ (audio_mappings parsed ++ subtitle_mappings parsed)) := by
  have hl : (video_mappings parsed).length = 1 := by rw [video_mappings_length, h]
  simp [get_mappings, hl]

/-- The selector rejects every list without exactly one video stream, with
the stderr message naming the count. -/
theorem get_mappings_err (parsed : List StreamType) (h : countVideo parsed ≠ 1) :
    get_mappings parsed =
      Except.error ("Erorr: File has " ++ toString (countVideo parsed) ++ " video streams") := by
  have hl : (video_mappings parsed).length ≠ 1 := by rw [video_mappings_length]; exact h
  unfold get_mappings
  rw [if_pos hl, video_mappings_length]

end Helpers2

section Helpers3

/-- The English-audio accumulator is empty exactly when no audio stream is
tagged `"eng"`. -/
theorem audio_eng_mappings_eq_nil (parsed : List StreamType) :
    audio_eng_mappings parsed = [] ↔
      ¬∃ a, StreamType.audio a ∈ parsed ∧ a.lang = some "eng" := by
  rw [List.eq_nil_iff_forall_not_mem]
  constructor
  · rintro h ⟨a, ha, hl⟩
    exact h a.index ((mem_audio_eng_mappings parsed a.index).mpr ⟨a, ha, hl, rfl⟩)
  · intro h i hi
    rcases (mem_audio_eng_mappings parsed i).mp hi with ⟨a, ha, hl, _⟩
    exact h ⟨a, ha, hl⟩

/-- The English-subtitle accumulator is empty exactly when no subtitle
stream is tagged `"eng"`. -/
theorem subtitle_eng_mappings_eq_nil (parsed : List StreamType) :
    subtitle_eng_mappings parsed = [] ↔
      ¬∃ st, StreamType.subtitle st ∈ parsed ∧ st.lang = some "eng" := by
  rw [List.eq_nil_iff_forall_not_mem]
  constructor
  · rintro h ⟨st, hst, hl⟩
    exact h st.index ((mem_subtitle_eng_mappings parsed st.index).mpr ⟨st, hst, hl, rfl⟩)
  · intro h i hi
    rcases (mem_subtitle_eng_mappings parsed i).mp hi with ⟨st, hst, hl, _⟩
    exact h ⟨st, hst, hl⟩

/-- A resolved decision list keeps exactly the selected indices, in order. -/
theorem get_codecs_keys (parsed : List StreamType) :
    ∀ (m : List Nat) (cs : List (Nat × Option CodecId)),
      get_codecs parsed m = some cs → cs.map Prod.fst = m := by
  intro m
  induction m with
  | nil => intro cs h; simp [get_codecs] at h; simp [← h]
  | cons i rest ih =>
    intro cs h
    cases hg : parsed[i]? with
    | none => simp [get_codecs, hg] at h
    | some stream =>
      cases hr : get_codecs parsed rest with
      | none => simp [get_codecs, hg, hr] at h
      | some tail =>
        simp only [get_codecs, hg, hr] at h
        cases h
        simpa using ih tail hr

/-- Every entry of a resolved decision list is the decision for the stream
found at its index. -/
theorem get_codecs_sound (parsed : List StreamType) :
    ∀ (m : List Nat) (cs : List (Nat × Option CodecId)),
      get_codecs parsed m = some cs →
      ∀ p ∈ cs, ∃ s, parsed[p.1]? = some s ∧ p.2 = codec_decision s := by
  intro m
  induction m with
  | nil =>
    intro cs h
    simp only [get_codecs, Option.some.injEq] at h
    subst h
    simp
  | cons i rest ih =>
    intro cs h
    cases hg : parsed[i]? with
    | none => simp [get_codecs, hg] at h
    | some stream =>
      cases hr : get_codecs parsed rest with
      | none => simp [get_codecs, hg, hr] at h
      | some tail =>
        simp only [get_codecs, hg, hr] at h
        cases h
        intro p hp
        rcases List.mem_cons.mp hp with hp | hp
        · subst hp; exact ⟨stream, hg, rfl⟩
        · exact ih tail hr p hp

/-- Resolution succeeds exactly when every selected index is in bounds. -/
theorem get_codecs_isSome (parsed : List StreamType) :
    ∀ m : List Nat, (∀ i ∈ m, ∃ s, parsed[i]? = some s) →
      ∃ cs, get_codecs parsed m = some cs := by
  intro m
  induction m with
  | nil => intro _; exact ⟨[], rfl⟩
  | cons i rest ih =>
    intro h
    rcases h i (List.mem_cons_self i rest) with ⟨s, hs⟩
    rcases ih (fun j hj => h j (List.mem_cons_of_mem i hj)) with ⟨tail, htail⟩
    exact ⟨(i, codec_decision s) :: tail, by simp [get_codecs, hs, htail]⟩

/-- The resolver's per-stream match agrees with the specification's decision
table. -/
theorem codec_decision_meets_spec : ∀ s : StreamType, decision_spec s (codec_decision s) := by
  intro s
  cases s with
  | video v =>
    obtain ⟨i, c, fo⟩ := v
    cases c <;> simp [codec_decision, decision_spec]
  | audio a =>
    obtain ⟨i, c, l, pr⟩ := a
    cases c <;> simp only [codec_decision, decision_spec] <;> try simp
    rcases pr with _ | p
    · simp
    · rcases p with _ | dp | n
      · simp
      · rcases dp with _ | n <;> simp
      · simp
  | subtitle st =>
    obtain ⟨i, c, l⟩ := st
    cases c <;> simp [codec_decision, decision_spec]

end Helpers3

section Helpers4

/-- When no stream is dropped, classification preserves the list length. -/
theorem parse_from_length_of_kept : ∀ (ss : List RawStream) (i : Nat),
    (∀ s ∈ ss, keptStream s = true) →
    (parse_stream_metadata_from i ss).length = ss.length := by
  intro ss
  induction ss with
  | nil => intro i _; rfl
  | cons s rest ih =>
    intro i hkept
    have hrest : ∀ t ∈ rest, keptStream t = true :=
      fun t ht => hkept t (List.mem_cons_of_mem s ht)
    have hs := hkept s (List.mem_cons_self s rest)
    cases hm : s.medium <;>
      simp [parse_stream_metadata_from, hm, ih (i + 1) hrest]
    case other => simp [keptStream, hm] at hs

/-- When no stream is dropped, the descriptor at position `k` of the
classifier's output from `i` carries index `i + k`. -/
theorem parse_from_getElem_of_kept : ∀ (ss : List RawStream) (i k : Nat) (d : StreamType),
    (∀ s ∈ ss, keptStream s = true) →
    (parse_stream_metadata_from i ss)[k]? = some d → d.idx = i + k := by
  intro ss
  induction ss with
  | nil => intro i k d _ h; simp [parse_stream_metadata_from] at h
  | cons s rest ih =>
    intro i k d hkept h
    have hrest : ∀ t ∈ rest, keptStream t = true :=
      fun t ht => hkept t (List.mem_cons_of_mem s ht)
    have hs := hkept s (List.mem_cons_self s rest)
    cases hm : s.medium
    case other => simp [keptStream, hm] at hs
    all_goals simp only [parse_stream_metadata_from, hm] at h
    case Video =>
      cases k with
      | zero =>
        simp only [List.getElem?_cons_zero, Option.some.injEq] at h
        subst h; simp [StreamType.idx, Video.new]
      | succ k => have := ih (i + 1) k d hrest (by simpa using h); omega
    case Audio =>
      cases k with
      | zero =>
        simp only [List.getElem?_cons_zero, Option.some.injEq] at h
        subst h; simp [StreamType.idx, Audio.new]
      | succ k => have := ih (i + 1) k d hrest (by simpa using h); omega
    case Subtitle =>
      cases k with
      | zero =>
        simp only [List.getElem?_cons_zero, Option.some.injEq] at h
        subst h; simp [StreamType.idx, Subtitle.new]
      | succ k => have := ih (i + 1) k d hrest (by simpa using h); omega

/-- Every classified descriptor comes from the raw stream at its own index:
a position `k` of the raw list, a kept stream there, and the corresponding
`*::new` construction, with index `i + k`. -/
theorem parse_from_mem_classifies : ∀ (ss : List RawStream) (i : Nat) (d : StreamType),
    d ∈ parse_stream_metadata_from i ss →
    ∃ k s, ss[k]? = some s ∧ d.idx = i + k ∧ classifies d.idx s d := by
  intro ss
  induction ss with
  | nil => intro i d h; simp [parse_stream_metadata_from] at h
  | cons s rest ih =>
    intro i d h
    cases hm : s.medium <;> simp only [parse_stream_metadata_from, hm] at h
    case Video =>
      rcases List.mem_cons.mp h with h | h
      · subst h
        exact ⟨0, s, by simp, by simp [StreamType.idx, Video.new], by simp [classifies, hm, StreamType.idx, Video.new]⟩
      · rcases ih (i + 1) d h with ⟨k, t, hget, hidx, hcl⟩
        exact ⟨k + 1, t, by simpa using hget, by omega, hcl⟩
    case Audio =>
      rcases List.mem_cons.mp h with h | h
      · subst h
        exact ⟨0, s, by simp, by simp [StreamType.idx, Audio.new], by simp [classifies, hm, StreamType.idx, Audio.new]⟩
      · rcases ih (i + 1) d h with ⟨k, t, hget, hidx, hcl⟩
        exact ⟨k + 1, t, by simpa using hget, by omega, hcl⟩
    case Subtitle =>
      rcases List.mem_cons.mp h with h | h
      · subst h
        exact ⟨0, s, by simp, by simp [StreamType.idx, Subtitle.new], by simp [classifies, hm, StreamType.idx, Subtitle.new]⟩
      · rcases ih (i + 1) d h with ⟨k, t, hget, hidx, hcl⟩
        exact ⟨k + 1, t, by simpa using hget, by omega, hcl⟩
    case other =>
      rcases ih (i + 1) d h with ⟨k, t, hget, hidx, hcl⟩
      exact ⟨k + 1, t, by simpa using hget, by omega, hcl⟩

/-- The indices the classifier outputs, in order: exactly the enumerated
positions of the kept raw streams. -/
theorem parse_from_map_idx : ∀ (ss : List RawStream) (i : Nat),
    (parse_stream_metadata_from i ss).map StreamType.idx =
      (List.enumFrom i ss).filterMap fun p => if keptStream p.2 then some p.1 else none := by
  intro ss
  induction ss with
  | nil => intro i; rfl
  | cons s rest ih =>
    intro i
    cases hm : s.medium <;>
      simp [parse_stream_metadata_from, hm, List.enumFrom, List.filterMap_cons, keptStream,
        StreamType.idx, Video.new, Audio.new, Subtitle.new, ih (i + 1)]

end Helpers4

section Helpers5

/-- Inversion of an accepted selection: the file had exactly one video
stream, and the plan is the three groups concatenated. -/
theorem get_mappings_ok_inv (parsed : List StreamType) (m : List Nat)
    (h : get_mappings parsed = Except.ok m) :
    countVideo parsed = 1 ∧
      m = video_mappings parsed ++ (audio_mappings parsed ++ subtitle_mappings parsed) := by
  by_cases hv : countVideo parsed = 1
  · rw [get_mappings_ok parsed hv] at h
    cases h
    exact ⟨hv, rfl⟩
  · rw [get_mappings_err parsed hv] at h
    cases h

/-- Any index in the (post-fallback) audio group belongs to an audio stream
of the file. -/
theorem mem_audio_mappings_exists (parsed : List StreamType) (i : Nat)
    (h : i ∈ audio_mappings parsed) :
    ∃ a, StreamType.audio a ∈ parsed ∧ a.index = i := by
  unfold audio_mappings at h
  by_cases he : (audio_eng_mappings parsed).length = 0
  · rw [if_pos he] at h
    exact (mem_audio_all_mappings parsed i).mp h
  · rw [if_neg he] at h
    rcases (mem_audio_eng_mappings parsed i).mp h with ⟨a, ha, _, hi⟩
    exact ⟨a, ha, hi⟩

/-- Any index in the (post-fallback) subtitle group belongs to a subtitle
stream of the file. -/
theorem mem_subtitle_mappings_exists (parsed : List StreamType) (i : Nat)
    (h : i ∈ subtitle_mappings parsed) :
    ∃ st, StreamType.subtitle st ∈ parsed ∧ st.index = i := by
  unfold subtitle_mappings at h
  by_cases he : (subtitle_eng_mappings parsed).length = 0
  · rw [if_pos he] at h
    exact (mem_subtitle_all_mappings parsed i).mp h
  · rw [if_neg he] at h
    rcases (mem_subtitle_eng_mappings parsed i).mp h with ⟨st, hst, _, hi⟩
    exact ⟨st, hst, hi⟩

/-- Any selected index belongs to some stream of the file. -/
theorem mem_mappings_exists (parsed : List StreamType) (m : List Nat) (i : Nat)
    (hm : get_mappings parsed = Except.ok m) (hi : i ∈ m) :
    ∃ d ∈ parsed, d.idx = i := by
  rcases get_mappings_ok_inv parsed m hm with ⟨_, hme⟩
  subst hme
  rcases List.mem_append.mp hi with h | h
  · rcases (mem_video_mappings parsed i).mp h with ⟨v, hv, hvi⟩
    exact ⟨StreamType.video v, hv, hvi⟩
  · rcases List.mem_append.mp h with h | h
    · rcases mem_audio_mappings_exists parsed i h with ⟨a, ha, hai⟩
      exact ⟨StreamType.audio a, ha, hai⟩
    · rcases mem_subtitle_mappings_exists parsed i h with ⟨st, hst, hsi⟩
      exact ⟨StreamType.subtitle st, hst, hsi⟩

/-- Two distinct descriptors of one classified list never share an index. -/
theorem parsed_idx_injective (file : List RawStream) :
    ∀ d1 ∈ parse_stream_metadata file, ∀ d2 ∈ parse_stream_metadata file,
      d1 ≠ d2 → d1.idx ≠ d2.idx := by
  intro d1 h1 d2 h2 hne
  have hp : (parse_stream_metadata file).Pairwise (fun a b => a.idx ≠ b.idx) :=
    (parse_from_pairwise file 0).imp fun h => Nat.ne_of_lt h
  exact hp.forall (fun a b h => h.symm) h1 h2 hne

/-- An accepted plan of a classified list has no repeated index. -/
theorem mappings_nodup (file : List RawStream) (m : List Nat)
    (hm : get_mappings (parse_stream_metadata file) = Except.ok m) : m.Nodup := by
  rcases get_mappings_ok_inv _ m hm with ⟨_, hme⟩
  subst hme
  have hvs : (video_mappings (parse_stream_metadata file)).Nodup :=
    (video_mappings_sorted file).imp fun h => Nat.ne_of_lt h
  have has : (audio_mappings (parse_stream_metadata file)).Nodup :=
    (audio_mappings_sorted file).imp fun h => Nat.ne_of_lt h
  have hss : (subtitle_mappings (parse_stream_metadata file)).Nodup :=
    (subtitle_mappings_sorted file).imp fun h => Nat.ne_of_lt h
  rw [List.nodup_append]
  refine ⟨hvs, ?_, ?_⟩
  · rw [List.nodup_append]
    refine ⟨has, hss, ?_⟩
    intro i hia his
    rcases mem_audio_mappings_exists _ i hia with ⟨a, ha, hai⟩
    rcases mem_subtitle_mappings_exists _ i his with ⟨st, hst, hsi⟩
    exact parsed_idx_injective file _ ha _ hst (by simp) (by simp [StreamType.idx, hai, hsi])
  · intro i hiv hi
    rcases (mem_video_mappings _ i).mp hiv with ⟨v, hv, hvi⟩
    rcases List.mem_append.mp hi with h | h
    · rcases mem_audio_mappings_exists _ i h with ⟨a, ha, hai⟩
      exact parsed_idx_injective file _ hv _ ha (by simp) (by simp [StreamType.idx, hvi, hai])
    · rcases mem_subtitle_mappings_exists _ i h with ⟨st, hst, hsi⟩
      exact parsed_idx_injective file _ hv _ hst (by simp) (by simp [StreamType.idx, hvi, hsi])

end Helpers5

section Helpers6

/-- Every audio descriptor of a classified list was built by `Audio.new`. -/
theorem audio_mem_parse_from : ∀ (ss : List RawStream) (i : Nat) (a : Audio),
    StreamType.audio a ∈ parse_stream_metadata_from i ss →
    ∃ j s, a = Audio.new j s := by
  intro ss
  induction ss with
  | nil => intro i a h; simp [parse_stream_metadata_from] at h
  | cons s rest ih =>
    intro i a h
    cases hm : s.medium <;> simp only [parse_stream_metadata_from, hm] at h
    case Video =>
      rcases List.mem_cons.mp h with h | h
      · cases h
      · exact ih (i + 1) a h
    case Audio =>
      rcases List.mem_cons.mp h with h | h
      · injection h with h
        exact ⟨i, s, h⟩
      · exact ih (i + 1) a h
    case Subtitle =>
      rcases List.mem_cons.mp h with h | h
      · cases h
      · exact ih (i + 1) a h
    case other => exact ih (i + 1) a h

/-- `Audio::new` never stores the decoder's `Unknown` profile. -/
theorem Audio.new_profile_ne_unknown (i : Nat) (s : RawStream) :
    (Audio.new i s).profile ≠ some Profile.Unknown := by
  unfold Audio.new
  cases hp : s.profileProbe with
  | error e => simp [hp]
  | ok p => cases p <;> simp [hp]

/-- A transcode decision targets a codec different from the source, except
for a subtitle stream whose source codec is already SSA. -/
theorem codec_decision_some_ne (s : StreamType) (c : CodecId)
    (h : codec_decision s = some c) :
    c ≠ s.codecOf ∨ (s.codecOf = CodecId.SSA ∧ c = CodecId.SSA) := by
  cases s with
  | video v =>
    obtain ⟨i, vc, fo⟩ := v
    cases vc <;> simp only [codec_decision, StreamType.codecOf] at h ⊢ <;>
      first
      | exact Option.noConfusion h
      | (injection h with h; subst h; simp)
  | audio a =>
    obtain ⟨i, ac, l, pr⟩ := a
    rcases pr with _ | p
    · cases ac <;> simp only [codec_decision, StreamType.codecOf] at h ⊢ <;>
        first
        | exact Option.noConfusion h
        | (injection h with h; subst h; simp)
    · rcases p with _ | dp | n
      · cases ac <;> simp only [codec_decision, StreamType.codecOf] at h ⊢ <;>
          first
          | exact Option.noConfusion h
          | (injection h with h; subst h; simp)
      · rcases dp with _ | n <;> cases ac <;>
          simp only [codec_decision, StreamType.codecOf] at h ⊢ <;>
          first
          | exact Option.noConfusion h
          | (injection h with h; subst h; simp)
      · cases ac <;> simp only [codec_decision, StreamType.codecOf] at h ⊢ <;>
          first
          | exact Option.noConfusion h
          | (injection h with h; subst h; simp)
  | subtitle st =>
    obtain ⟨i, sc, l⟩ := st
    cases sc <;> simp only [codec_decision, StreamType.codecOf] at h ⊢ <;>
      first
      | exact Option.noConfusion h
      | (injection h with h; subst h; simp)

/-- Every report line reflects one decision entry: the old codec is the
stream's, the `(copy)` annotation matches a pass-through decision, and the
new codec is the target (or the old codec on pass-through). -/
theorem print_codec_mapping_sound (parsed : List StreamType) :
    ∀ (cs : List (Nat × Option CodecId)) (rep : List ReportLine),
      print_codec_mapping parsed cs = some rep →
      ∀ l ∈ rep, ∃ s d, parsed[l.index]? = some s ∧ (l.index, d) ∈ cs ∧
        l.oldcodec = s.codecOf ∧
        ((d = none ∧ l.copy = true ∧ l.newcodec = s.codecOf) ∨
         (∃ c, d = some c ∧ l.copy = false ∧ l.newcodec = c)) := by
  intro cs
  induction cs with
  | nil =>
    intro rep h
    simp only [print_codec_mapping, Option.some.injEq] at h
    subst h
    simp
  | cons p rest ih =>
    intro rep h
    obtain ⟨index, codec⟩ := p
    cases hg : parsed[index]? with
    | none => simp [print_codec_mapping, hg] at h
    | some stream =>
      cases hr : print_codec_mapping parsed rest with
      | none => simp [print_codec_mapping, hg, hr] at h
      | some tail =>
        simp only [print_codec_mapping, hg, hr] at h
        cases h
        intro l hl
        rcases List.mem_cons.mp hl with hl | hl
        · subst hl
          refine ⟨stream, codec, hg, List.mem_cons_self _ _, rfl, ?_⟩
          cases codec with
          | none => exact Or.inl ⟨rfl, rfl, rfl⟩
          | some c => exact Or.inr ⟨c, rfl, rfl, rfl⟩
        · rcases ih tail hr l hl with ⟨s, d, hs, hd, htail⟩
          exact ⟨s, d, hs, List.mem_cons_of_mem _ hd, htail⟩

/-- Inversion of a successful pipeline run. -/
theorem convert_file_ok_inv (file : List RawStream) (m : List Nat)
    (cs : List (Nat × Option CodecId)) (rep : List ReportLine)
    (h : convert_file file = Except.ok (m, cs, rep)) :
    get_mappings (parse_stream_metadata file) = Except.ok m ∧
      get_codecs (parse_stream_metadata file) m = some cs ∧
      print_codec_mapping (parse_stream_metadata file) cs = some rep := by
  cases hm : get_mappings (parse_stream_metadata file) with
  | error e => simp [convert_file, hm] at h
  | ok m' =>
    cases hc : get_codecs (parse_stream_metadata file) m' with
    | none => simp [convert_file, hm, hc] at h
    | some cs' =>
      cases hp : print_codec_mapping (parse_stream_metadata file) cs' with
      | none => simp [convert_file, hm, hc, hp] at h
      | some rep' =>
        simp only [convert_file, hm, hc, hp, Except.ok.injEq, Prod.mk.injEq] at h
        obtain ⟨h1, h2, h3⟩ := h
        subst h1
        subst h2
        subst h3
        exact ⟨rfl, hc, hp⟩

/-- A file without exactly one video stream aborts the pipeline with the
selector's message. -/
theorem convert_file_err (file : List RawStream)
    (h : countVideo (parse_stream_metadata file) ≠ 1) :
    convert_file file =
      Except.error
        ("Erorr: File has " ++ toString (countVideo (parse_stream_metadata file)) ++
          " video streams") := by
  simp only [convert_file]
  rw [get_mappings_err _ h]

end Helpers6

/-- C1: for every selected stream, the decision computed by `get_codecs`
follows the specification's codec table exactly — H.264/HEVC video passed
through, other video transcoded to H.264; FLAC/AAC audio passed through,
TrueHD to FLAC, DTS with profile HD-MA to FLAC, DTS otherwise to AAC, other
audio to AAC; PGS/DVD subtitles passed through, other subtitles to SSA. -/
theorem claim_C1_codec_table (parsed : List StreamType) (mappings : List Nat)
    (cs : List (Nat × Option CodecId))
    (h : get_codecs parsed mappings = some cs) :
    ∀ p ∈ cs, ∃ s, parsed[p.1]? = some s ∧ decision_spec s p.2 := by
  intro p hp
  rcases get_codecs_sound parsed mappings cs h p hp with ⟨s, hs, hd⟩
  exact ⟨s, hs, hd ▸ codec_decision_meets_spec s⟩

/-- Witness for C1 at the classified three-stream example: the decision for
the DTS HD-MA audio stream at index 1 meets the specification table. -/
theorem claim_C1_codec_table_witness :
    ∃ s, (parse_stream_metadata exampleFile1)[(1, some CodecId.FLAC).1]? = some s ∧
      decision_spec s (1, some CodecId.FLAC).2 :=
  claim_C1_codec_table (parse_stream_metadata exampleFile1) [0, 1, 2]
    [(0, none), (1, some CodecId.FLAC), (2, none)] (by decide)
    (1, some CodecId.FLAC) (by decide)

/-- C2: a classified list with exactly one video stream is accepted and the
plan includes that video stream; any other video-stream count is rejected
with the stderr message naming the observed count, and the pipeline
produces no plan and no codec decision for that file. -/
theorem claim_C2_single_video (parsed : List StreamType) :
    (countVideo parsed = 1 →
      ∃ m, get_mappings parsed = Except.ok m ∧
        ∀ v, StreamType.video v ∈ parsed → v.index ∈ m) ∧
    (countVideo parsed ≠ 1 →
      get_mappings parsed =
        Except.error ("Erorr: File has " ++ toString (countVideo parsed) ++ " video streams") ∧
      ∀ file, parse_stream_metadata file = parsed →
        convert_file file =
          Except.error
            ("Erorr: File has " ++ toString (countVideo parsed) ++ " video streams")) := by
  constructor
  · intro h1
    refine ⟨_, get_mappings_ok parsed h1, ?_⟩
    intro v hv
    exact List.mem_append_left _ ((mem_video_mappings parsed v.index).mpr ⟨v, hv, rfl⟩)
  · intro h1
    refine ⟨get_mappings_err parsed h1, ?_⟩
    intro file hf
    subst hf
    exact convert_file_err file h1

/-- C3: per media kind, the selector takes exactly the `"eng"`-tagged
streams of that kind when at least one exists, and otherwise all streams of
that kind. -/
theorem claim_C3_eng_fallback (parsed : List StreamType) :
    (((∃ a, StreamType.audio a ∈ parsed ∧ a.lang = some "eng") →
        ∀ i, i ∈ audio_mappings parsed ↔
          ∃ a, StreamType.audio a ∈ parsed ∧ a.lang = some "eng" ∧ a.index = i) ∧
      ((¬∃ a, StreamType.audio a ∈ parsed ∧ a.lang = some "eng") →
        ∀ i, i ∈ audio_mappings parsed ↔
          ∃ a, StreamType.audio a ∈ parsed ∧ a.index = i)) ∧
    (((∃ st, StreamType.subtitle st ∈ parsed ∧ st.lang = some "eng") →
        ∀ i, i ∈ subtitle_mappings parsed ↔
          ∃ st, StreamType.subtitle st ∈ parsed ∧ st.lang = some "eng" ∧ st.index = i) ∧
      ((¬∃ st, StreamType.subtitle st ∈ parsed ∧ st.lang = some "eng") →
        ∀ i, i ∈ subtitle_mappings parsed ↔
          ∃ st, StreamType.subtitle st ∈ parsed ∧ st.index = i)) := by
  refine ⟨⟨?_, ?_⟩, ?_, ?_⟩
  · intro he i
    have hne : audio_eng_mappings parsed ≠ [] := fun hnil =>
      (audio_eng_mappings_eq_nil parsed).mp hnil he
    have hlen : ¬(audio_eng_mappings parsed).length = 0 := by
      simpa [List.length_eq_zero] using hne
    unfold audio_mappings
    rw [if_neg hlen]
    exact mem_audio_eng_mappings parsed i
  · intro he i
    have hnil : audio_eng_mappings parsed = [] := (audio_eng_mappings_eq_nil parsed).mpr he
    unfold audio_mappings
    rw [hnil]
    simp only [List.length_nil, if_pos]
    exact mem_audio_all_mappings parsed i
  · intro he i
    have hne : subtitle_eng_mappings parsed ≠ [] := fun hnil =>
      (subtitle_eng_mappings_eq_nil parsed).mp hnil he
    have hlen : ¬(subtitle_eng_mappings parsed).length = 0 := by
      simpa [List.length_eq_zero] using hne
    unfold subtitle_mappings
    rw [if_neg hlen]
    exact mem_subtitle_eng_mappings parsed i
  · intro he i
    have hnil : subtitle_eng_mappings parsed = [] := (subtitle_eng_mappings_eq_nil parsed).mpr he
    unfold subtitle_mappings
    rw [hnil]
    simp only [List.length_nil, if_pos]
    exact mem_subtitle_all_mappings parsed i

/-- A file whose subtitle stream already uses the SSA codec: it falls into
the resolver's subtitle catch-all and is "transcoded" to SSA. -/
def sampleSSAFile : List RawStream :=
  [ { medium := .Video, codec := .H264, lang := none,
      fieldOrderProbe := .ok .AV_FIELD_PROGRESSIVE, profileProbe := .error 0 },
    { medium := .Subtitle, codec := .SSA, lang := some "eng",
      fieldOrderProbe := .error 0, profileProbe := .error 0 } ]

/-- Counterexample to C4 as stated: on `sampleSSAFile` the subtitle stream
at index 1 receives a transcode decision (`some SSA`, reported without the
`(copy)` annotation) whose reported new codec equals the source codec SSA. -/
theorem claim_C4_counterexample :
    convert_file sampleSSAFile =
      Except.ok ([0, 1], [(0, none), (1, some CodecId.SSA)],
        [ { index := 0, oldcodec := .H264, newcodec := .H264, copy := true },
          { index := 1, oldcodec := .SSA, newcodec := .SSA, copy := false } ]) ∧
    ¬∀ l ∈ [ReportLine.mk 0 CodecId.H264 CodecId.H264 true,
            ReportLine.mk 1 CodecId.SSA CodecId.SSA false],
        l.copy = false → l.newcodec ≠ l.oldcodec := by
  constructor
  · decide
  · decide

/-- C4 (amended): a pass-through decision always reports a new codec equal
to the source codec, and a transcode decision reports a new codec different
from the source codec, except for a subtitle stream whose source codec is
already SSA, whose transcode target SSA equals its source codec. -/
theorem claim_C4_report_codecs (file : List RawStream) (m : List Nat)
    (cs : List (Nat × Option CodecId)) (rep : List ReportLine)
    (h : convert_file file = Except.ok (m, cs, rep)) :
    ∀ l ∈ rep,
      (l.copy = true → l.newcodec = l.oldcodec) ∧
      (l.copy = false →
        l.newcodec ≠ l.oldcodec ∨ (l.oldcodec = CodecId.SSA ∧ l.newcodec = CodecId.SSA)) := by
  rcases convert_file_ok_inv file m cs rep h with ⟨hm, hc, hp⟩
  intro l hl
  rcases print_codec_mapping_sound _ cs rep hp l hl with ⟨s, d, hs, hd, hold, hcase⟩
  rcases get_codecs_sound _ m cs hc (l.index, d) hd with ⟨s', hs', hdec⟩
  rw [hs] at hs'
  injection hs' with hs'
  subst hs'
  rcases hcase with ⟨hdn, hc1, hnew⟩ | ⟨c, hdc, hc0, hnew⟩
  · constructor
    · intro _
      rw [hnew, hold]
    · intro hcontra
      rw [hc1] at hcontra
      cases hcontra
  · constructor
    · intro hcontra
      rw [hc0] at hcontra
      cases hcontra
    · intro _
      have hdec' : codec_decision s = some c := by rw [← hdec, hdc]
      rcases codec_decision_some_ne s c hdec' with hne | ⟨hssa, hcssa⟩
      · exact Or.inl (by rw [hnew, hold]; exact hne)
      · exact Or.inr ⟨by rw [hold]; exact hssa, by rw [hnew]; exact hcssa⟩

/-- Witness for the amended C4 at the three-stream example file: the report
line for the DTS HD-MA audio stream is a transcode whose new codec FLAC
differs from the source codec DTS. -/
theorem claim_C4_report_codecs_witness :
    ((ReportLine.mk 1 CodecId.DTS CodecId.FLAC false).copy = true →
      (ReportLine.mk 1 CodecId.DTS CodecId.FLAC false).newcodec =
        (ReportLine.mk 1 CodecId.DTS CodecId.FLAC false).oldcodec) ∧
    ((ReportLine.mk 1 CodecId.DTS CodecId.FLAC false).copy = false →
      (ReportLine.mk 1 CodecId.DTS CodecId.FLAC false).newcodec ≠
          (ReportLine.mk 1 CodecId.DTS CodecId.FLAC false).oldcodec ∨
        ((ReportLine.mk 1 CodecId.DTS CodecId.FLAC false).oldcodec = CodecId.SSA ∧
          (ReportLine.mk 1 CodecId.DTS CodecId.FLAC false).newcodec = CodecId.SSA)) :=
  claim_C4_report_codecs exampleFile1 [0, 1, 2]
    [(0, none), (1, some CodecId.FLAC), (2, none)]
    [ ReportLine.mk 0 CodecId.H264 CodecId.H264 true,
      ReportLine.mk 1 CodecId.DTS CodecId.FLAC false,
      ReportLine.mk 2 CodecId.HDMV_PGS_SUBTITLE CodecId.HDMV_PGS_SUBTITLE true ]
    (by decide) (ReportLine.mk 1 CodecId.DTS CodecId.FLAC false) (by decide)

/-- C5: an accepted plan is the video group, then the audio group, then the
subtitle group, and each group is in strictly ascending original container
index order. -/
theorem claim_C5_plan_order (file : List RawStream) (m : List Nat)
    (hm : get_mappings (parse_stream_metadata file) = Except.ok m) :
    m = video_mappings (parse_stream_metadata file) ++
        (audio_mappings (parse_stream_metadata file) ++
          subtitle_mappings (parse_stream_metadata file)) ∧
      (video_mappings (parse_stream_metadata file)).Pairwise (· < ·) ∧
      (audio_mappings (parse_stream_metadata file)).Pairwise (· < ·) ∧
      (subtitle_mappings (parse_stream_metadata file)).Pairwise (· < ·) := by
  rcases get_mappings_ok_inv _ m hm with ⟨_, hme⟩
  exact ⟨hme, video_mappings_sorted file, audio_mappings_sorted file,
    subtitle_mappings_sorted file⟩

/-- Witness for C5 at the three-stream example file, whose accepted plan is
`[0, 1, 2]`. -/
theorem claim_C5_plan_order_witness :
    [0, 1, 2] = video_mappings (parse_stream_metadata exampleFile1) ++
        (audio_mappings (parse_stream_metadata exampleFile1) ++
          subtitle_mappings (parse_stream_metadata exampleFile1)) ∧
      (video_mappings (parse_stream_metadata exampleFile1)).Pairwise (· < ·) ∧
      (audio_mappings (parse_stream_metadata exampleFile1)).Pairwise (· < ·) ∧
      (subtitle_mappings (parse_stream_metadata exampleFile1)).Pairwise (· < ·) :=
  claim_C5_plan_order exampleFile1 [0, 1, 2] (by decide)

/-- A container whose first stream is a data stream (dropped by the
classifier) followed by one video stream: the classified list has length 1
but the selected index is 1. -/
def droppedStreamFile : List RawStream :=
  [ { medium := .other 2, codec := .other 0, lang := none,
      fieldOrderProbe := .error 0, profileProbe := .error 0 },
    { medium := .Video, codec := .H264, lang := none,
      fieldOrderProbe := .ok .AV_FIELD_PROGRESSIVE, profileProbe := .error 0 } ]

/-- C6: when classification drops no stream, looking a selected index up as
a position in the classified list is in bounds and yields the descriptor
carrying that index; and there is an input with a dropped stream for which
that lookup is out of bounds, aborting the pipeline. -/
theorem claim_C6_position_lookup :
    (∀ (file : List RawStream) (m : List Nat),
      (∀ s ∈ file, keptStream s = true) →
      get_mappings (parse_stream_metadata file) = Except.ok m →
      ∀ i ∈ m, ∃ d, (parse_stream_metadata file)[i]? = some d ∧ d.idx = i) ∧
    ((∃ s ∈ droppedStreamFile, keptStream s = false) ∧
      get_mappings (parse_stream_metadata droppedStreamFile) = Except.ok [1] ∧
      (parse_stream_metadata droppedStreamFile)[(1 : Nat)]? = none ∧
      convert_file droppedStreamFile = Except.error "panic: index out of bounds") := by
  constructor
  · intro file m hkept hm i hi
    rcases mem_mappings_exists _ m i hm hi with ⟨d, hd, hidx⟩
    rcases List.mem_iff_getElem?.mp hd with ⟨k, hk⟩
    have hpos := parse_from_getElem_of_kept file 0 k d hkept hk
    refine ⟨d, ?_, hidx⟩
    rw [← hidx, hpos]
    simpa using hk
  · exact ⟨by decide, by decide, by decide, by decide⟩

/-- C7: the decisions an accepted file receives are keyed by exactly the
selected indices, one decision per selected index and none for any other
index. -/
theorem claim_C7_decision_domain (file : List RawStream) (m : List Nat)
    (cs : List (Nat × Option CodecId))
    (hm : get_mappings (parse_stream_metadata file) = Except.ok m)
    (hc : get_codecs (parse_stream_metadata file) m = some cs) :
    cs.map Prod.fst = m ∧ m.Nodup :=
  ⟨get_codecs_keys _ m cs hc, mappings_nodup file m hm⟩

/-- Witness for C7 at the three-stream example file. -/
theorem claim_C7_decision_domain_witness :
    ([((0 : Nat), (none : Option CodecId)), (1, some CodecId.FLAC), (2, none)].map Prod.fst =
        [0, 1, 2]) ∧
      ([0, 1, 2] : List Nat).Nodup :=
  claim_C7_decision_domain exampleFile1 [0, 1, 2]
    [(0, none), (1, some CodecId.FLAC), (2, none)] (by decide) (by decide)

/-- C8: the classifier emits descriptors in container order with original
indices unchanged — the emitted index sequence is exactly the enumeration
positions of the kept (video/audio/subtitle) streams — and every descriptor
is the classification of the raw stream at its own index; every other
stream is silently omitted. -/
theorem claim_C8_classifier_shape (file : List RawStream) :
    (parse_stream_metadata file).map StreamType.idx =
      (file.enum.filterMap fun p => if keptStream p.2 then some p.1 else none) ∧
    ∀ d ∈ parse_stream_metadata file,
      ∃ s, file[d.idx]? = some s ∧ classifies d.idx s d := by
  constructor
  · simpa [parse_stream_metadata, List.enum] using parse_from_map_idx file 0
  · intro d hd
    rcases parse_from_mem_classifies file 0 d hd with ⟨k, s, hk, hidx, hcl⟩
    refine ⟨s, ?_, hcl⟩
    rw [hidx]
    simpa using hk

/-- C9: no classified audio descriptor stores the decoder's `Unknown`
profile — classification maps both `Unknown` and a failed decoder open to
`none`. -/
theorem claim_C9_no_unknown_profile (file : List RawStream) (a : Audio)
    (h : StreamType.audio a ∈ parse_stream_metadata file) :
    a.profile ≠ some Profile.Unknown := by
  rcases audio_mem_parse_from file 0 a h with ⟨j, s, rfl⟩
  exact Audio.new_profile_ne_unknown j s

/-- Witness for C9: the DTS HD-MA audio descriptor of the three-stream
example file does not carry an `Unknown` profile. -/
theorem claim_C9_no_unknown_profile_witness :
    (Audio.mk 1 CodecId.DTS (some "eng") (some (Profile.DTS DTSProfile.HD_MA))).profile ≠
      some Profile.Unknown :=
  claim_C9_no_unknown_profile exampleFile1
    (Audio.mk 1 CodecId.DTS (some "eng") (some (Profile.DTS DTSProfile.HD_MA))) (by decide)

/-- C10: a classified list with exactly one video stream and no audio
streams is accepted with an empty audio group: the empty audio fallback is
not an error and the plan is the video group followed by the subtitle
group. -/
theorem claim_C10_empty_audio (parsed : List StreamType)
    (h1 : countVideo parsed = 1) (h0 : countAudio parsed = 0) :
    audio_mappings parsed = [] ∧
      get_mappings parsed =
        Except.ok (video_mappings parsed ++ subtitle_mappings parsed) := by
  have hno : ∀ a : Audio, StreamType.audio a ∉ parsed := by
    intro a ha
    have := (List.countP_eq_zero.mp h0) _ ha
    simp at this
  have hall : audio_all_mappings parsed = [] := by
    rw [List.eq_nil_iff_forall_not_mem]
    intro i hi
    rcases (mem_audio_all_mappings parsed i).mp hi with ⟨a, ha, _⟩
    exact hno a ha
  have heng : audio_eng_mappings parsed = [] := by
    rw [audio_eng_mappings_eq_nil]
    rintro ⟨a, ha, _⟩
    exact hno a ha
  have hmap : audio_mappings parsed = [] := by
    unfold audio_mappings
    rw [heng]
    simpa using hall
  refine ⟨hmap, ?_⟩
  rw [get_mappings_ok parsed h1, hmap]
  simp

/-- Classified list of a file with one video stream and one subtitle
stream and no audio at all. -/
def noAudioParsed : List StreamType :=
  [ StreamType.video (Video.mk 0 CodecId.H264 FieldOrder.Progressive),
    StreamType.subtitle (Subtitle.mk 1 CodecId.SSA none) ]

/-- Witness for C10 at a one-video, one-subtitle, zero-audio list. -/
theorem claim_C10_empty_audio_witness :
    audio_mappings noAudioParsed = [] ∧
      get_mappings noAudioParsed =
        Except.ok (video_mappings noAudioParsed ++ subtitle_mappings noAudioParsed) :=
  claim_C10_empty_audio noAudioParsed (by decide) (by decide)
